import Mathlib

/-!
Verification of the statistics engine of the sigma-tracker repository
(src/src/App.jsx): return computation, full-sample and rolling-window
z-score normalization, range filtering and the signal list.

Numeric values are modelled as real numbers; dates as strings compared
lexicographically, matching the string comparison the code performs on
ISO dates.  The JS for-loop of computeReturns is modelled with explicit
fuel (the fuel prices.length bounds the iteration count since the step
is at least 1).
-/

namespace SigmaTracker

/-- A price sample as delivered by the proxy: an ISO date and a close. -/
structure PricePoint where
  date : String
  close : ℝ

/-- A period return as pushed by computeReturns: the fractional return and
the date of the later endpoint. -/
structure PeriodReturn where
  ret : ℝ
  date : String

/-- A normalized point: the spread fields of the PeriodReturn plus the
z-score; localMean and localStd are present only in rolling mode, matching
the optional fields of the JS objects. -/
structure NormalizedPoint where
  ret : ℝ
  date : String
  z : ℝ
  localMean : Option ℝ
  localStd : Option ℝ

/-- Result record of both normalizers. -/
structure StatsResult where
  mean : ℝ
  std : ℝ
  data : List NormalizedPoint

/-- Default PeriodReturn used only by getD accessors in statements. -/
def dfltR : PeriodReturn := { ret := 0, date := "" }

/-- Default NormalizedPoint used only by getD accessors in statements. -/
def dfltN : NormalizedPoint :=
  { ret := 0, date := "", z := 0, localMean := none, localStd := none }

/-- Step size from the period selector:
period equal daily gives 1, weekly gives 5, anything else 21. -/
def stepOf (period : String) : Nat :=
  if period = "daily" then 1 else if period = "weekly" then 5 else 21

/-- Sum of a list of reals, written as the JS reduce with initial value 0. -/
noncomputable def sumList (xs : List ℝ) : ℝ :=
  xs.foldl (fun a b => a + b) 0

/-- Sum of squared deviations from m, as the JS reduce. -/
noncomputable def sumSqDev (xs : List ℝ) (m : ℝ) : ℝ :=
  xs.foldl (fun a b => a + (b - m) ^ 2) 0

/-- Body of the computeReturns for-loop: starting at index i, step s,
with fuel bounding the number of iterations. -/
noncomputable def computeReturnsAux (prices : List PricePoint) (s : Nat) :
    Nat → Nat → List PeriodReturn
  | _, 0 => []
  | i, fuel + 1 =>
    if h : i < prices.length then
      { ret := ((prices.get ⟨i, h⟩).close
            - (prices.get ⟨i - s, Nat.lt_of_le_of_lt (Nat.sub_le i s) h⟩).close)
          / (prices.get ⟨i - s, Nat.lt_of_le_of_lt (Nat.sub_le i s) h⟩).close,
        date := (prices.get ⟨i, h⟩).date }
        :: computeReturnsAux prices s (i + s) fuel
    else []

/-- computeReturns from App.jsx: loop i from step below prices.length in
increments of step, pushing the fractional return against the close step
positions earlier. -/
noncomputable def computeReturns (prices : List PricePoint) (period : String) :
    List PeriodReturn :=
  computeReturnsAux prices (stepOf period) (stepOf period) prices.length

/-- computeStatsFullSample from App.jsx: one mean and sample standard
deviation for the whole return sequence.  The JS divisor guard
(n - 1 || 1) is modelled as the conditional on n - 1 = 0; the n = 0 early
return makes the two readings of the guard agree on every reachable input. -/
noncomputable def computeStatsFullSample (returns : List PeriodReturn) : StatsResult :=
  let n := returns.length
  if n = 0 then { mean := 0, std := 0, data := [] }
  else
    let vals := returns.map (fun r => r.ret)
    let mean := sumList vals / (n : ℝ)
    let variance := sumSqDev vals mean / (((if n - 1 = 0 then 1 else n - 1) : ℕ) : ℝ)
    let std := Real.sqrt variance
    { mean := mean, std := std,
      data := returns.map (fun r =>
        { ret := r.ret, date := r.date,
          z := if std = 0 then 0 else (r.ret - mean) / std,
          localMean := none, localStd := none }) }

/-- Local slice of computeStatsRolling at index i: the JS
returns.slice(0, i + 1) in the warm-up branch and
returns.slice(i - windowSize, i) in the steady branch, both mapped to the
ret field.  A slice from a to b is drop a followed by take (b - a). -/
noncomputable def rollingWindow (returns : List PeriodReturn) (w i : Nat) : List ℝ :=
  if i < w then (returns.take (i + 1)).map (fun r => r.ret)
  else ((returns.drop (i - w)).take (i - (i - w))).map (fun r => r.ret)

/-- The mean local to index i in computeStatsRolling. -/
noncomputable def localMeanAt (returns : List PeriodReturn) (w i : Nat) : ℝ :=
  sumList (rollingWindow returns w i) / ((rollingWindow returns w i).length : ℝ)

/-- The variance local to index i in computeStatsRolling: the warm-up
branch guards with n greater than 1, the steady branch with the JS
(n - 1 || 1) divisor. -/
noncomputable def localVarAt (returns : List PeriodReturn) (w i : Nat) : ℝ :=
  let slice := rollingWindow returns w i
  let n := slice.length
  if i < w then
    if 1 < n then sumSqDev slice (localMeanAt returns w i) / ((n - 1 : ℕ) : ℝ) else 0
  else
    sumSqDev slice (localMeanAt returns w i)
      / (((if n - 1 = 0 then 1 else n - 1) : ℕ) : ℝ)

/-- The standard deviation local to index i in computeStatsRolling. -/
noncomputable def localStdAt (returns : List PeriodReturn) (w i : Nat) : ℝ :=
  Real.sqrt (localVarAt returns w i)

/-- The point pushed by iteration i of computeStatsRolling: the spread
fields of the PeriodReturn plus z, localMean and localStd. -/
noncomputable def rollingPoint (returns : List PeriodReturn) (w i : Nat)
    (r : PeriodReturn) : NormalizedPoint :=
  { ret := r.ret, date := r.date,
    z := if localStdAt returns w i = 0 then 0
         else (r.ret - localMeanAt returns w i) / localStdAt returns w i,
    localMean := some (localMeanAt returns w i),
    localStd := some (localStdAt returns w i) }

/-- computeStatsRolling from App.jsx.  The loop pushes one point per index;
totalMean and totalStd accumulate the per-iteration local mean and std, and
validCount is incremented once per iteration, so it equals the length. -/
noncomputable def computeStatsRolling (returns : List PeriodReturn) (w : Nat) :
    StatsResult :=
  let validCount := returns.length
  { mean := if 0 < validCount then
        sumList ((List.range returns.length).map (localMeanAt returns w))
          / (validCount : ℝ)
      else 0,
    std := if 0 < validCount then
        sumList ((List.range returns.length).map (localStdAt returns w))
          / (validCount : ℝ)
      else 0,
    data := returns.enum.map (fun p => rollingPoint returns w p.1 p.2) }

/-- The filteredData memo of App.jsx: the full input when either bound is
the empty string, otherwise the points whose date lies inclusively between
the bounds, compared as strings. -/
def filterRange (data : List NormalizedPoint) (startDate endDate : String) :
    List NormalizedPoint :=
  if startDate = "" ∨ endDate = "" then data
  else data.filter (fun d => decide (startDate ≤ d.date ∧ d.date ≤ endDate))

/-- The signal list of App.jsx: filter to absolute z at least the
threshold, then sort descending by absolute z.  The JS Array sort is
stable, modelled by mergeSort. -/
noncomputable def listSignals (data : List NormalizedPoint) (threshold : ℝ) :
    List NormalizedPoint :=
  (data.filter (fun d => decide (threshold ≤ |d.z|))).mergeSort
    (fun a b => decide (|b.z| ≤ |a.z|))

theorem stepOf_pos (period : String) : 0 < stepOf period := by
  unfold stepOf
  split
  · exact Nat.one_pos
  · split
    · norm_num
    · norm_num

theorem computeReturnsAux_length (prices : List PricePoint) (s : Nat) (hs : 0 < s) :
    ∀ fuel i, prices.length ≤ i + fuel * s →
      (computeReturnsAux prices s i fuel).length = (prices.length - i + s - 1) / s := by
  intro fuel
  induction fuel with
  | zero =>
    intro i h
    simp only [Nat.zero_mul, Nat.add_zero] at h
    rw [computeReturnsAux]
    simp only [List.length_nil]
    rw [Nat.sub_eq_zero_of_le h]
    exact (Nat.div_eq_of_lt (by omega)).symm
  | succ fuel ih =>
    intro i h
    rw [computeReturnsAux]
    by_cases hi : i < prices.length
    · rw [dif_pos hi]
      have h2 : prices.length ≤ (i + s) + fuel * s := by
        rw [Nat.succ_mul] at h
        omega
      rw [List.length_cons, ih (i + s) h2]
      have hm : 1 ≤ prices.length - i := by omega
      set m := prices.length - i with hmdef
      have hsub : prices.length - (i + s) = m - s := by omega
      rw [hsub]
      by_cases hms : s ≤ m
      · have e1 : m + s - 1 = (m - 1) + s := by omega
        have e2 : m - s + s - 1 = m - 1 := by omega
        rw [e1, e2, Nat.add_div_right _ hs]
      · have e3 : m - s = 0 := by omega
        rw [e3]
        have l1 : (0 + s - 1) / s = 0 := Nat.div_eq_of_lt (by omega)
        have l2 : (m + s - 1) / s = 1 := by
          apply Nat.div_eq_of_lt_le
          · omega
          · omega
        rw [l1, l2]
    · rw [dif_neg hi]
      simp only [List.length_nil]
      have hle : prices.length ≤ i := by omega
      rw [Nat.sub_eq_zero_of_le hle]
      exact (Nat.div_eq_of_lt (by omega)).symm

theorem computeReturns_length (prices : List PricePoint) (period : String) :
    (computeReturns prices period).length = (prices.length - 1) / stepOf period := by
  have hs := stepOf_pos period
  set s := stepOf period with hsdef
  have hfuel : prices.length ≤ s + prices.length * s := by
    have := Nat.le_mul_of_pos_right prices.length hs
    omega
  rw [computeReturns, ← hsdef, computeReturnsAux_length prices s hs prices.length s hfuel]
  by_cases h1 : s ≤ prices.length
  · have e : prices.length - s + s - 1 = prices.length - 1 := by omega
    rw [e]
  · have e : prices.length - s = 0 := by omega
    rw [e]
    have l1 : (0 + s - 1) / s = 0 := Nat.div_eq_of_lt (by omega)
    have l2 : (prices.length - 1) / s = 0 := Nat.div_eq_of_lt (by omega)
    rw [l1, l2]

theorem computeReturnsAux_mem (prices : List PricePoint) (s : Nat) :
    ∀ fuel i r, r ∈ computeReturnsAux prices s i fuel →
      ∃ j, ∃ hj : j < prices.length, i ≤ j ∧ r.date = (prices.get ⟨j, hj⟩).date := by
  intro fuel
  induction fuel with
  | zero =>
    intro i r hr
    rw [computeReturnsAux] at hr
    simp at hr
  | succ fuel ih =>
    intro i r hr
    rw [computeReturnsAux] at hr
    by_cases hi : i < prices.length
    · rw [dif_pos hi] at hr
      rcases List.mem_cons.mp hr with h | h
      · exact ⟨i, hi, Nat.le_refl i, by rw [h]⟩
      · obtain ⟨j, hj, hij, hd⟩ := ih (i + s) r h
        exact ⟨j, hj, by omega, hd⟩
    · rw [dif_neg hi] at hr
      simp at hr

theorem computeReturnsAux_pairwise (prices : List PricePoint) (s : Nat) (hs : 0 < s)
    (hp : List.Pairwise (fun a b => a.date < b.date) prices) :
    ∀ fuel i, List.Pairwise (fun a b => a.date < b.date)
      (computeReturnsAux prices s i fuel) := by
  intro fuel
  induction fuel with
  | zero =>
    intro i
    rw [computeReturnsAux]
    exact List.Pairwise.nil
  | succ fuel ih =>
    intro i
    rw [computeReturnsAux]
    by_cases hi : i < prices.length
    · rw [dif_pos hi]
      refine List.Pairwise.cons ?_ (ih (i + s))
      intro r hr
      obtain ⟨j, hj, hij, hd⟩ := computeReturnsAux_mem prices s fuel (i + s) r hr
      have hij2 : i < j := by omega
      have := List.pairwise_iff_getElem.mp hp i j hi hj hij2
      simpa [hd, List.get_eq_getElem] using this
    · rw [dif_neg hi]
      exact List.Pairwise.nil

/-- C1: for every non-empty price sequence strictly ordered ascending by date,
computeReturns with the daily, weekly or monthly period yields a sequence of
length floor of (N - 1) over the step, itself strictly ordered ascending by
date, and the result is empty whenever the price count is at most the step. -/
theorem computeReturns_length_ordered (prices : List PricePoint) (period : String)
    (hne : prices ≠ [])
    (hper : period = "daily" ∨ period = "weekly" ∨ period = "monthly")
    (hsorted : List.Pairwise (fun a b => a.date < b.date) prices) :
    (computeReturns prices period).length = (prices.length - 1) / stepOf period
    ∧ List.Pairwise (fun a b => a.date < b.date) (computeReturns prices period)
    ∧ (prices.length ≤ stepOf period → computeReturns prices period = []) := by
  refine ⟨computeReturns_length prices period, ?_, ?_⟩
  · rw [computeReturns]
    exact computeReturnsAux_pairwise prices (stepOf period)
      (stepOf_pos period) hsorted prices.length (stepOf period)
  · intro hle
    have hs := stepOf_pos period
    have hlen := computeReturns_length prices period
    have hz : (prices.length - 1) / stepOf period = 0 :=
      Nat.div_eq_of_lt (by omega)
    rw [hz] at hlen
    exact List.eq_nil_of_length_eq_zero hlen

/-- Witness for C1 at a concrete three-point daily price series. -/
theorem computeReturns_length_ordered_witness :
    ([({ date := "2024-01-02", close := 100 } : PricePoint),
      { date := "2024-01-03", close := 102 },
      { date := "2024-01-04", close := 101 }] ≠ [])
    ∧ ((computeReturns
        [({ date := "2024-01-02", close := 100 } : PricePoint),
         { date := "2024-01-03", close := 102 },
         { date := "2024-01-04", close := 101 }] "daily").length
          = (3 - 1) / stepOf "daily"
      ∧ List.Pairwise (fun a b => a.date < b.date)
          (computeReturns
            [({ date := "2024-01-02", close := 100 } : PricePoint),
             { date := "2024-01-03", close := 102 },
             { date := "2024-01-04", close := 101 }] "daily")
      ∧ (3 ≤ stepOf "daily" → computeReturns
            [({ date := "2024-01-02", close := 100 } : PricePoint),
             { date := "2024-01-03", close := 102 },
             { date := "2024-01-04", close := 101 }] "daily" = [])) := by
  constructor
  · simp
  · exact computeReturns_length_ordered _ "daily" (by simp) (Or.inl rfl)
      (by simp [List.pairwise_cons]; decide)

theorem sumList_nil : sumList [] = 0 := rfl

theorem foldl_add_acc (xs : List ℝ) :
    ∀ a : ℝ, xs.foldl (fun p q => p + q) a = a + sumList xs := by
  induction xs with
  | nil => intro a; simp [sumList]
  | cons x xs ih =>
    intro a
    simp only [List.foldl_cons, sumList] at ih ⊢
    rw [ih (a + x), ih (0 + x)]
    ring

theorem sumList_cons (x : ℝ) (xs : List ℝ) : sumList (x :: xs) = x + sumList xs := by
  have h : sumList (x :: xs) = xs.foldl (fun p q => p + q) (0 + x) := rfl
  rw [h, foldl_add_acc xs (0 + x)]
  ring

theorem foldl_sqdev_acc (xs : List ℝ) (m : ℝ) :
    ∀ a : ℝ, xs.foldl (fun p q => p + (q - m) ^ 2) a = a + sumSqDev xs m := by
  induction xs with
  | nil => intro a; simp [sumSqDev]
  | cons x xs ih =>
    intro a
    simp only [List.foldl_cons, sumSqDev] at ih ⊢
    rw [ih (a + (x - m) ^ 2), ih (0 + (x - m) ^ 2)]
    ring

theorem sumSqDev_cons (x : ℝ) (xs : List ℝ) (m : ℝ) :
    sumSqDev (x :: xs) m = (x - m) ^ 2 + sumSqDev xs m := by
  have h : sumSqDev (x :: xs) m = xs.foldl (fun p q => p + (q - m) ^ 2) (0 + (x - m) ^ 2) := rfl
  rw [h, foldl_sqdev_acc xs m (0 + (x - m) ^ 2)]
  ring

theorem sumList_const (xs : List ℝ) (c : ℝ) (h : ∀ x ∈ xs, x = c) :
    sumList xs = (xs.length : ℝ) * c := by
  induction xs with
  | nil => simp [sumList_nil]
  | cons x xs ih =>
    have hx : x = c := h x (List.mem_cons_self x xs)
    have ht := ih (fun y hy => h y (List.mem_cons_of_mem x hy))
    rw [sumList_cons, List.length_cons, hx, ht]
    push_cast
    ring

theorem sumSqDev_const (xs : List ℝ) (c : ℝ) (h : ∀ x ∈ xs, x = c) :
    sumSqDev xs c = 0 := by
  induction xs with
  | nil => rfl
  | cons x xs ih =>
    have hx : x = c := h x (List.mem_cons_self x xs)
    have ht := ih (fun y hy => h y (List.mem_cons_of_mem x hy))
    rw [sumSqDev_cons, hx, ht]
    ring

theorem fullSample_mean_eq (returns : List PeriodReturn) (h0 : returns.length ≠ 0) :
    (computeStatsFullSample returns).mean
      = sumList (returns.map fun r => r.ret) / (returns.length : ℝ) := by
  simp [computeStatsFullSample, h0]

theorem fullSample_std_eq (returns : List PeriodReturn) (h0 : returns.length ≠ 0) :
    (computeStatsFullSample returns).std
      = Real.sqrt (sumSqDev (returns.map fun r => r.ret)
          (sumList (returns.map fun r => r.ret) / (returns.length : ℝ))
        / (((if returns.length - 1 = 0 then 1 else returns.length - 1) : ℕ) : ℝ)) := by
  simp [computeStatsFullSample, h0]

theorem fullSample_data_eq (returns : List PeriodReturn) (h0 : returns.length ≠ 0) :
    (computeStatsFullSample returns).data
      = returns.map (fun r =>
          { ret := r.ret, date := r.date,
            z := if (computeStatsFullSample returns).std = 0 then 0
                 else (r.ret - (computeStatsFullSample returns).mean)
                   / (computeStatsFullSample returns).std,
            localMean := none, localStd := none }) := by
  simp [computeStatsFullSample, h0]

/-- C4: on a return sequence whose ret values are all identical, the
full-sample normalizer yields a zero standard deviation and a zero z-score
at every output point. -/
theorem computeStatsFullSample_const (returns : List PeriodReturn) (c : ℝ)
    (hc : ∀ r ∈ returns, r.ret = c) :
    (computeStatsFullSample returns).std = 0
    ∧ ∀ pt ∈ (computeStatsFullSample returns).data, pt.z = 0 := by
  by_cases h0 : returns.length = 0
  · constructor
    · simp [computeStatsFullSample, h0]
    · intro pt hpt
      simp [computeStatsFullSample, h0] at hpt
  · have hvals : ∀ x ∈ returns.map (fun r => r.ret), x = c := by
      intro x hx
      obtain ⟨r, hr, rfl⟩ := List.mem_map.mp hx
      exact hc r hr
    have hmean : sumList (returns.map fun r => r.ret) / (returns.length : ℝ) = c := by
      rw [sumList_const _ c hvals, List.length_map]
      have : (returns.length : ℝ) ≠ 0 := Nat.cast_ne_zero.mpr h0
      field_simp
    have hstd : (computeStatsFullSample returns).std = 0 := by
      rw [fullSample_std_eq returns h0, hmean, sumSqDev_const _ c hvals]
      simp [Real.sqrt_eq_zero_of_nonpos]
    refine ⟨hstd, ?_⟩
    intro pt hpt
    rw [fullSample_data_eq returns h0] at hpt
    obtain ⟨r, hr, rfl⟩ := List.mem_map.mp hpt
    simp [hstd]

/-- Witness for C4 at a two-point constant return sequence. -/
theorem computeStatsFullSample_const_witness :
    (∀ r ∈ [({ ret := (5 : ℝ) / 100, date := "2024-01-02" } : PeriodReturn),
            { ret := (5 : ℝ) / 100, date := "2024-01-03" }], r.ret = (5 : ℝ) / 100)
    ∧ ((computeStatsFullSample
          [({ ret := (5 : ℝ) / 100, date := "2024-01-02" } : PeriodReturn),
           { ret := (5 : ℝ) / 100, date := "2024-01-03" }]).std = 0
      ∧ ∀ pt ∈ (computeStatsFullSample
          [({ ret := (5 : ℝ) / 100, date := "2024-01-02" } : PeriodReturn),
           { ret := (5 : ℝ) / 100, date := "2024-01-03" }]).data, pt.z = 0) := by
  refine ⟨?_, computeStatsFullSample_const _ ((5 : ℝ) / 100) ?_⟩
  · intro r hr
    rcases List.mem_cons.mp hr with h | h
    · rw [h]
    · rcases List.mem_cons.mp h with h2 | h2
      · rw [h2]
      · simp at h2
  · intro r hr
    rcases List.mem_cons.mp hr with h | h
    · rw [h]
    · rcases List.mem_cons.mp h with h2 | h2
      · rw [h2]
      · simp at h2

/-- C9: computeStatsRolling on the empty return sequence returns the record
with zero mean, zero std and empty data, for every window size. -/
theorem computeStatsRolling_empty (w : Nat) :
    computeStatsRolling [] w = { mean := 0, std := 0, data := [] } := by
  simp [computeStatsRolling]

theorem rolling_data_eq (returns : List PeriodReturn) (w : Nat) :
    (computeStatsRolling returns w).data
      = returns.enum.map (fun p => rollingPoint returns w p.1 p.2) := by
  simp [computeStatsRolling]

theorem rolling_data_length (returns : List PeriodReturn) (w : Nat) :
    (computeStatsRolling returns w).data.length = returns.length := by
  rw [rolling_data_eq]
  simp

theorem rolling_data_getD (returns : List PeriodReturn) (w i : Nat)
    (hi : i < returns.length) :
    (computeStatsRolling returns w).data.getD i dfltN
      = rollingPoint returns w i (returns.get ⟨i, hi⟩) := by
  rw [rolling_data_eq]
  have hi2 : i < (returns.enum.map (fun p => rollingPoint returns w p.1 p.2)).length := by
    simpa using hi
  rw [List.getD_eq_getElem?_getD, List.getElem?_eq_getElem hi2]
  simp [List.enum]

theorem full_data_getD (returns : List PeriodReturn) (i : Nat)
    (hi : i < returns.length) :
    ((computeStatsFullSample returns).data.getD i dfltN).date
        = (returns.getD i dfltR).date
    ∧ ((computeStatsFullSample returns).data.getD i dfltN).ret
        = (returns.getD i dfltR).ret := by
  have h0 : returns.length ≠ 0 := by omega
  rw [fullSample_data_eq returns h0]
  have hi2 : i < (returns.map (fun r =>
      ({ ret := r.ret, date := r.date,
         z := if (computeStatsFullSample returns).std = 0 then 0
              else (r.ret - (computeStatsFullSample returns).mean)
                / (computeStatsFullSample returns).std,
         localMean := none, localStd := none } : NormalizedPoint))).length := by
    simpa using hi
  rw [List.getD_eq_getElem?_getD, List.getElem?_eq_getElem hi2,
    List.getD_eq_getElem?_getD, List.getElem?_eq_getElem hi]
  simp

/-- C10: both normalizers are frame preserving: the output data has the
length of the input, and at every index the output point carries the date
and ret of the input point at that index. -/
theorem normalizers_frame (returns : List PeriodReturn) (w : Nat) (hw : 1 ≤ w) :
    ((computeStatsFullSample returns).data.length = returns.length
      ∧ ∀ i, i < returns.length →
        ((computeStatsFullSample returns).data.getD i dfltN).date
            = (returns.getD i dfltR).date
        ∧ ((computeStatsFullSample returns).data.getD i dfltN).ret
            = (returns.getD i dfltR).ret)
    ∧ ((computeStatsRolling returns w).data.length = returns.length
      ∧ ∀ i, i < returns.length →
        ((computeStatsRolling returns w).data.getD i dfltN).date
            = (returns.getD i dfltR).date
        ∧ ((computeStatsRolling returns w).data.getD i dfltN).ret
            = (returns.getD i dfltR).ret) := by
  refine ⟨⟨?_, ?_⟩, rolling_data_length returns w, ?_⟩
  · by_cases h0 : returns.length = 0
    · simp [computeStatsFullSample, h0]
    · rw [fullSample_data_eq returns h0]
      simp
  · intro i hi
    exact full_data_getD returns i hi
  · intro i hi
    rw [rolling_data_getD returns w i hi, List.getD_eq_getElem?_getD,
      List.getElem?_eq_getElem hi]
    simp [rollingPoint]

/-- Witness for C10 at a concrete one-point return sequence and window 1. -/
theorem normalizers_frame_witness :
    1 ≤ 1
    ∧ (((computeStatsFullSample
          [({ ret := (1 : ℝ) / 100, date := "2024-01-02" } : PeriodReturn)]).data.length = 1
      ∧ ∀ i, i < ([({ ret := (1 : ℝ) / 100, date := "2024-01-02" } : PeriodReturn)]).length →
        ((computeStatsFullSample
            [({ ret := (1 : ℝ) / 100, date := "2024-01-02" } : PeriodReturn)]).data.getD i dfltN).date
            = (([({ ret := (1 : ℝ) / 100, date := "2024-01-02" } : PeriodReturn)]).getD i dfltR).date
        ∧ ((computeStatsFullSample
            [({ ret := (1 : ℝ) / 100, date := "2024-01-02" } : PeriodReturn)]).data.getD i dfltN).ret
            = (([({ ret := (1 : ℝ) / 100, date := "2024-01-02" } : PeriodReturn)]).getD i dfltR).ret)
    ∧ ((computeStatsRolling
          [({ ret := (1 : ℝ) / 100, date := "2024-01-02" } : PeriodReturn)] 1).data.length = 1
      ∧ ∀ i, i < ([({ ret := (1 : ℝ) / 100, date := "2024-01-02" } : PeriodReturn)]).length →
        ((computeStatsRolling
            [({ ret := (1 : ℝ) / 100, date := "2024-01-02" } : PeriodReturn)] 1).data.getD i dfltN).date
            = (([({ ret := (1 : ℝ) / 100, date := "2024-01-02" } : PeriodReturn)]).getD i dfltR).date
        ∧ ((computeStatsRolling
            [({ ret := (1 : ℝ) / 100, date := "2024-01-02" } : PeriodReturn)] 1).data.getD i dfltN).ret
            = (([({ ret := (1 : ℝ) / 100, date := "2024-01-02" } : PeriodReturn)]).getD i dfltR).ret)) :=
  ⟨Nat.le_refl 1, normalizers_frame
    [({ ret := (1 : ℝ) / 100, date := "2024-01-02" } : PeriodReturn)] 1 (Nat.le_refl 1)⟩

/-- C6: every output point of either normalizer satisfies the z-score
invariant: z equals ret minus the used mean, divided by the used std, when
that std is nonzero, and z equals 0 otherwise.  The used statistics are the
global mean and std in full-sample mode and the localMean and localStd
carried by the point in rolling mode. -/
theorem z_invariant :
    (∀ (returns : List PeriodReturn) (pt : NormalizedPoint),
      pt ∈ (computeStatsFullSample returns).data →
      pt.z = if (computeStatsFullSample returns).std = 0 then 0
             else (pt.ret - (computeStatsFullSample returns).mean)
               / (computeStatsFullSample returns).std)
    ∧ (∀ (returns : List PeriodReturn) (w : Nat) (pt : NormalizedPoint) (m s : ℝ),
      pt ∈ (computeStatsRolling returns w).data →
      pt.localMean = some m → pt.localStd = some s →
      pt.z = if s = 0 then 0 else (pt.ret - m) / s) := by
  constructor
  · intro returns pt hpt
    by_cases h0 : returns.length = 0
    · simp [computeStatsFullSample, h0] at hpt
    · rw [fullSample_data_eq returns h0] at hpt
      obtain ⟨r, hr, rfl⟩ := List.mem_map.mp hpt
      simp
  · intro returns w pt m s hpt hm hs
    rw [rolling_data_eq] at hpt
    obtain ⟨p, hp, rfl⟩ := List.mem_map.mp hpt
    simp only [rollingPoint, Option.some.injEq] at hm hs ⊢
    rw [← hm, ← hs]

/-- Witness for C6: a single-point return sequence in both modes. -/
theorem z_invariant_witness :
    (({ ret := (3 : ℝ) / 100, date := "2024-01-02", z := 0,
        localMean := none, localStd := none } : NormalizedPoint)
        ∈ (computeStatsFullSample
            [({ ret := (3 : ℝ) / 100, date := "2024-01-02" } : PeriodReturn)]).data
      ∧ ({ ret := (3 : ℝ) / 100, date := "2024-01-02", z := 0,
           localMean := none, localStd := none } : NormalizedPoint).z
        = if (computeStatsFullSample
              [({ ret := (3 : ℝ) / 100, date := "2024-01-02" } : PeriodReturn)]).std = 0
          then 0
          else (({ ret := (3 : ℝ) / 100, date := "2024-01-02", z := 0,
                   localMean := none, localStd := none } : NormalizedPoint).ret
              - (computeStatsFullSample
                  [({ ret := (3 : ℝ) / 100, date := "2024-01-02" } : PeriodReturn)]).mean)
            / (computeStatsFullSample
                [({ ret := (3 : ℝ) / 100, date := "2024-01-02" } : PeriodReturn)]).std) := by
  have hmem : ({ ret := (3 : ℝ) / 100, date := "2024-01-02", z := 0,
                 localMean := none, localStd := none } : NormalizedPoint)
      ∈ (computeStatsFullSample
          [({ ret := (3 : ℝ) / 100, date := "2024-01-02" } : PeriodReturn)]).data := by
    rw [fullSample_data_eq _ (by norm_num)]
    have hstd : (computeStatsFullSample
        [({ ret := (3 : ℝ) / 100, date := "2024-01-02" } : PeriodReturn)]).std = 0 := by
      rw [fullSample_std_eq _ (by norm_num)]
      have hdev : sumSqDev
          ([({ ret := (3 : ℝ) / 100, date := "2024-01-02" } : PeriodReturn)].map
            fun r => r.ret)
          (sumList ([({ ret := (3 : ℝ) / 100, date := "2024-01-02" } : PeriodReturn)].map
            fun r => r.ret) / ((1 : ℕ) : ℝ)) = 0 := by
        apply sumSqDev_const
        intro x hx
        simp only [List.map_cons, List.map_nil, List.mem_singleton] at hx
        rw [hx]
        simp only [List.map_cons, List.map_nil]
        rw [sumList_cons, sumList_nil]
        norm_num
      simp only [List.length_cons, List.length_nil] at hdev ⊢
      rw [hdev]
      simp
    rw [hstd]
    simp
  exact ⟨hmem, z_invariant.1 _ _ hmem⟩

theorem rollingWindow_steady (returns : List PeriodReturn) (w i : Nat) (hiw : w ≤ i) :
    rollingWindow returns w i
      = ((returns.drop (i - w)).take w).map (fun r => r.ret) := by
  rw [rollingWindow, if_neg (by omega)]
  congr 2
  omega

theorem rolling_localStats_window (returns₁ returns₂ : List PeriodReturn) (w i : Nat)
    (hwin : rollingWindow returns₁ w i = rollingWindow returns₂ w i) :
    localMeanAt returns₁ w i = localMeanAt returns₂ w i
    ∧ localStdAt returns₁ w i = localStdAt returns₂ w i := by
  have hm : localMeanAt returns₁ w i = localMeanAt returns₂ w i := by
    rw [localMeanAt, localMeanAt, hwin]
  refine ⟨hm, ?_⟩
  rw [localStdAt, localStdAt, localVarAt, localVarAt, hwin, hm]

theorem steady_slice_set (returns : List PeriodReturn) (w i : Nat) (hiw : w ≤ i)
    (r : PeriodReturn) :
    ((returns.set i r).drop (i - w)).take w = (returns.drop (i - w)).take w := by
  rw [List.drop_set, if_neg (by omega)]
  have e : i - (i - w) = w := by omega
  rw [e, List.set_take, List.set_eq_of_length_le]
  simp only [List.length_take, List.length_drop]
  omega

/-- C2: computeStatsRolling is causal in the steady region.  For every
index i at least the window size, the localMean and localStd of the output
point at i are functions of the window of the w points strictly before i
alone: any other return sequence presenting the same window yields the same
local statistics at i, and in particular replacing the ret value at index i
itself leaves the localMean and localStd of point i unchanged. -/
theorem computeStatsRolling_causal (returns : List PeriodReturn) (w i : Nat) (x : ℝ)
    (hw : 1 ≤ w) (hiw : w ≤ i) (hi : i < returns.length) :
    (∀ returns₂ : List PeriodReturn, i < returns₂.length →
      ((returns₂.drop (i - w)).take w).map (fun r => r.ret)
          = ((returns.drop (i - w)).take w).map (fun r => r.ret) →
      ((computeStatsRolling returns₂ w).data.getD i dfltN).localMean
          = ((computeStatsRolling returns w).data.getD i dfltN).localMean
      ∧ ((computeStatsRolling returns₂ w).data.getD i dfltN).localStd
          = ((computeStatsRolling returns w).data.getD i dfltN).localStd)
    ∧ (((computeStatsRolling
          (returns.set i { ret := x, date := (returns.get ⟨i, hi⟩).date })
          w).data.getD i dfltN).localMean
        = ((computeStatsRolling returns w).data.getD i dfltN).localMean
      ∧ ((computeStatsRolling
          (returns.set i { ret := x, date := (returns.get ⟨i, hi⟩).date })
          w).data.getD i dfltN).localStd
        = ((computeStatsRolling returns w).data.getD i dfltN).localStd) := by
  have key : ∀ returns₂ : List PeriodReturn, i < returns₂.length →
      ((returns₂.drop (i - w)).take w).map (fun r => r.ret)
          = ((returns.drop (i - w)).take w).map (fun r => r.ret) →
      ((computeStatsRolling returns₂ w).data.getD i dfltN).localMean
          = ((computeStatsRolling returns w).data.getD i dfltN).localMean
      ∧ ((computeStatsRolling returns₂ w).data.getD i dfltN).localStd
          = ((computeStatsRolling returns w).data.getD i dfltN).localStd := by
    intro returns₂ hi₂ hwin
    have hw2 : rollingWindow returns₂ w i = rollingWindow returns w i := by
      rw [rollingWindow_steady returns₂ w i hiw, rollingWindow_steady returns w i hiw,
        hwin]
    obtain ⟨hm, hsd⟩ := rolling_localStats_window returns₂ returns w i hw2
    rw [rolling_data_getD returns₂ w i hi₂, rolling_data_getD returns w i hi]
    constructor
    · simp only [rollingPoint, hm]
    · simp only [rollingPoint, hsd]
  refine ⟨key, ?_⟩
  apply key
  · simpa using hi
  · have := steady_slice_set returns w i hiw
      { ret := x, date := (returns.get ⟨i, hi⟩).date }
    rw [this]

/-- Witness for C2: three returns, window 1, index 2, replacement 99. -/
theorem computeStatsRolling_causal_witness :
    (1 ≤ 1 ∧ 1 ≤ 2
      ∧ 2 < ([({ ret := (1 : ℝ) / 100, date := "2024-01-02" } : PeriodReturn),
              { ret := (2 : ℝ) / 100, date := "2024-01-03" },
              { ret := (3 : ℝ) / 100, date := "2024-01-04" }]).length)
    ∧ (((computeStatsRolling
          (([({ ret := (1 : ℝ) / 100, date := "2024-01-02" } : PeriodReturn),
             { ret := (2 : ℝ) / 100, date := "2024-01-03" },
             { ret := (3 : ℝ) / 100, date := "2024-01-04" }]).set 2
            { ret := 99,
              date := (([({ ret := (1 : ℝ) / 100, date := "2024-01-02" } : PeriodReturn),
                         { ret := (2 : ℝ) / 100, date := "2024-01-03" },
                         { ret := (3 : ℝ) / 100, date := "2024-01-04" }]).get
                  ⟨2, by norm_num⟩).date })
          1).data.getD 2 dfltN).localMean
        = ((computeStatsRolling
            [({ ret := (1 : ℝ) / 100, date := "2024-01-02" } : PeriodReturn),
             { ret := (2 : ℝ) / 100, date := "2024-01-03" },
             { ret := (3 : ℝ) / 100, date := "2024-01-04" }] 1).data.getD 2 dfltN).localMean) := by
  refine ⟨⟨Nat.le_refl 1, by norm_num, by norm_num⟩, ?_⟩
  exact (computeStatsRolling_causal
    [({ ret := (1 : ℝ) / 100, date := "2024-01-02" } : PeriodReturn),
     { ret := (2 : ℝ) / 100, date := "2024-01-03" },
     { ret := (3 : ℝ) / 100, date := "2024-01-04" }] 1 2 99
    (Nat.le_refl 1) (by norm_num) (by norm_num)).2.1

/-- C3: in the warm-up region of computeStatsRolling the local window of
point i is the expanding inclusive window of the first i plus 1 returns,
and its localMean is the mean of that window; concretely, with window size
2 on any 4 returns, points 0 and 1 use the expanding windows, point 2 uses
the window of returns 0 and 1, and point 3 the window of returns 1 and 2. -/
theorem computeStatsRolling_warmup (returns : List PeriodReturn) (w i : Nat)
    (hi : i < returns.length) (hiw : i < w) :
    (rollingWindow returns w i = (returns.take (i + 1)).map (fun r => r.ret)
      ∧ ((computeStatsRolling returns w).data.getD i dfltN).localMean
          = some (sumList ((returns.take (i + 1)).map (fun r => r.ret))
              / ((i + 1 : ℕ) : ℝ)))
    ∧ (∀ r0 r1 r2 r3 : PeriodReturn,
        rollingWindow [r0, r1, r2, r3] 2 0 = [r0.ret]
        ∧ rollingWindow [r0, r1, r2, r3] 2 1 = [r0.ret, r1.ret]
        ∧ rollingWindow [r0, r1, r2, r3] 2 2 = [r0.ret, r1.ret]
        ∧ rollingWindow [r0, r1, r2, r3] 2 3 = [r1.ret, r2.ret]) := by
  have hwin : rollingWindow returns w i = (returns.take (i + 1)).map (fun r => r.ret) := by
    rw [rollingWindow, if_pos hiw]
  have hlen : (((returns.take (i + 1)).map (fun r => r.ret)).length : ℝ)
      = ((i + 1 : ℕ) : ℝ) := by
    simp only [List.length_map, List.length_take]
    congr 1
    omega
  refine ⟨⟨hwin, ?_⟩, ?_⟩
  · rw [rolling_data_getD returns w i hi]
    simp only [rollingPoint, Option.some.injEq]
    rw [localMeanAt, hwin, hlen]
  · intro r0 r1 r2 r3
    refine ⟨?_, ?_, ?_, ?_⟩ <;> simp [rollingWindow]

/-- Witness for C3: four concrete returns, window 2, index 1. -/
theorem computeStatsRolling_warmup_witness :
    (1 < ([({ ret := (1 : ℝ) / 100, date := "2024-01-02" } : PeriodReturn),
           { ret := (2 : ℝ) / 100, date := "2024-01-03" },
           { ret := (3 : ℝ) / 100, date := "2024-01-04" },
           { ret := (4 : ℝ) / 100, date := "2024-01-05" }]).length ∧ 1 < 2)
    ∧ rollingWindow
        [({ ret := (1 : ℝ) / 100, date := "2024-01-02" } : PeriodReturn),
         { ret := (2 : ℝ) / 100, date := "2024-01-03" },
         { ret := (3 : ℝ) / 100, date := "2024-01-04" },
         { ret := (4 : ℝ) / 100, date := "2024-01-05" }] 2 1
      = (([({ ret := (1 : ℝ) / 100, date := "2024-01-02" } : PeriodReturn),
           { ret := (2 : ℝ) / 100, date := "2024-01-03" },
           { ret := (3 : ℝ) / 100, date := "2024-01-04" },
           { ret := (4 : ℝ) / 100, date := "2024-01-05" }]).take 2).map
          (fun r => r.ret) := by
  refine ⟨⟨by norm_num, by norm_num⟩, ?_⟩
  exact (computeStatsRolling_warmup
    [({ ret := (1 : ℝ) / 100, date := "2024-01-02" } : PeriodReturn),
     { ret := (2 : ℝ) / 100, date := "2024-01-03" },
     { ret := (3 : ℝ) / 100, date := "2024-01-04" },
     { ret := (4 : ℝ) / 100, date := "2024-01-05" }] 2 1 (by norm_num) (by norm_num)).1.1

/-- C8: range filtering is idempotent; with both bounds present it keeps
exactly the points whose date lies inclusively between the bounds, and with
either bound absent it returns the full input. -/
theorem filterRange_spec (data : List NormalizedPoint) (s e : String) :
    filterRange (filterRange data s e) s e = filterRange data s e
    ∧ (s = "" ∨ e = "" → filterRange data s e = data)
    ∧ (s ≠ "" → e ≠ "" →
        ∀ d, d ∈ filterRange data s e ↔ d ∈ data ∧ s ≤ d.date ∧ d.date ≤ e) := by
  by_cases habs : s = "" ∨ e = ""
  · have h1 : ∀ l : List NormalizedPoint, filterRange l s e = l := by
      intro l
      rw [filterRange, if_pos habs]
    refine ⟨by rw [h1, h1], fun _ => h1 data, ?_⟩
    intro hs he d
    rcases habs with h | h
    · exact absurd h hs
    · exact absurd h he
  · have h1 : ∀ l : List NormalizedPoint,
        filterRange l s e = l.filter (fun d => decide (s ≤ d.date ∧ d.date ≤ e)) := by
      intro l
      rw [filterRange, if_neg habs]
    refine ⟨?_, fun h => absurd h habs, ?_⟩
    · rw [h1, h1, List.filter_filter]
      simp
    · intro _ _ d
      rw [h1, List.mem_filter]
      simp

/-- Witness for C8 at a concrete two-point sequence and concrete bounds. -/
theorem filterRange_spec_witness :
    filterRange (filterRange
        [({ ret := (1 : ℝ) / 100, date := "2024-01-02", z := 1,
            localMean := none, localStd := none } : NormalizedPoint),
         { ret := (2 : ℝ) / 100, date := "2024-03-02", z := 2,
           localMean := none, localStd := none }] "2024-01-01" "2024-02-01")
        "2024-01-01" "2024-02-01"
      = filterRange
        [({ ret := (1 : ℝ) / 100, date := "2024-01-02", z := 1,
            localMean := none, localStd := none } : NormalizedPoint),
         { ret := (2 : ℝ) / 100, date := "2024-03-02", z := 2,
           localMean := none, localStd := none }] "2024-01-01" "2024-02-01" :=
  (filterRange_spec
    [({ ret := (1 : ℝ) / 100, date := "2024-01-02", z := 1,
        localMean := none, localStd := none } : NormalizedPoint),
     { ret := (2 : ℝ) / 100, date := "2024-03-02", z := 2,
       localMean := none, localStd := none }] "2024-01-01" "2024-02-01").1

/-- C7: for every positive threshold the signal list is a permutation of
the subsequence of points whose absolute z is at least the threshold, it is
sorted descending by absolute z, and pairs with equal absolute z keep their
original relative order. -/
theorem listSignals_spec (data : List NormalizedPoint) (threshold : ℝ)
    (hth : 0 < threshold) :
    List.Perm (listSignals data threshold)
        (data.filter (fun d => decide (threshold ≤ |d.z|)))
    ∧ List.Pairwise (fun a b => |b.z| ≤ |a.z|) (listSignals data threshold)
    ∧ (∀ a b : NormalizedPoint, |a.z| = |b.z| →
        List.Sublist [a, b] (data.filter (fun d => decide (threshold ≤ |d.z|))) →
        List.Sublist [a, b] (listSignals data threshold)) := by
  have htrans : ∀ a b c : NormalizedPoint,
      (fun a b : NormalizedPoint => decide (|b.z| ≤ |a.z|)) a b →
      (fun a b : NormalizedPoint => decide (|b.z| ≤ |a.z|)) b c →
      (fun a b : NormalizedPoint => decide (|b.z| ≤ |a.z|)) a c := by
    intro a b c hab hbc
    simp only [decide_eq_true_eq] at hab hbc ⊢
    exact le_trans hbc hab
  have htotal : ∀ a b : NormalizedPoint,
      ((fun a b : NormalizedPoint => decide (|b.z| ≤ |a.z|)) a b
        || (fun a b : NormalizedPoint => decide (|b.z| ≤ |a.z|)) b a) := by
    intro a b
    simp only [Bool.or_eq_true, decide_eq_true_eq]
    exact le_total _ _
  refine ⟨List.mergeSort_perm _ _, ?_, ?_⟩
  · have hs := List.sorted_mergeSort htrans htotal
      (data.filter (fun d => decide (threshold ≤ |d.z|)))
    rw [listSignals]
    exact hs.imp (fun h => by simpa using h)
  · intro a b hab hsub
    rw [listSignals]
    exact List.pair_sublist_mergeSort htrans htotal (by simp [hab]) hsub

/-- Witness for C7 at threshold 2 on a concrete one-point sequence. -/
theorem listSignals_spec_witness :
    (0 : ℝ) < 2
    ∧ List.Perm (listSignals
        [({ ret := (1 : ℝ) / 100, date := "2024-01-02", z := 3,
            localMean := none, localStd := none } : NormalizedPoint)] 2)
        (([({ ret := (1 : ℝ) / 100, date := "2024-01-02", z := 3,
              localMean := none, localStd := none } : NormalizedPoint)]).filter
          (fun d => decide ((2 : ℝ) ≤ |d.z|))) :=
  ⟨by norm_num,
    (listSignals_spec
      [({ ret := (1 : ℝ) / 100, date := "2024-01-02", z := 3,
          localMean := none, localStd := none } : NormalizedPoint)] 2 (by norm_num)).1⟩

/-- The prices of the concrete scenario in the spec. -/
noncomputable def scenarioPrices : List PricePoint :=
  [{ date := "2024-01-01", close := 100 }, { date := "2024-01-02", close := 102 },
   { date := "2024-01-03", close := 101 }, { date := "2024-01-04", close := 105 },
   { date := "2024-01-05", close := 90 }]

/-- The daily returns of the concrete scenario. -/
noncomputable def scenarioReturns : List PeriodReturn :=
  computeReturns scenarioPrices "daily"

/-- The full-sample statistics of the concrete scenario. -/
noncomputable def scenarioStats : StatsResult :=
  computeStatsFullSample scenarioReturns

theorem scenarioReturns_eq :
    scenarioReturns =
      [{ ret := (102 - 100) / 100, date := "2024-01-02" },
       { ret := (101 - 102) / 102, date := "2024-01-03" },
       { ret := (105 - 101) / 101, date := "2024-01-04" },
       { ret := (90 - 105) / 105, date := "2024-01-05" }] := by
  norm_num [scenarioReturns, computeReturns, computeReturnsAux, stepOf, scenarioPrices]

theorem scenarioStats_mean : scenarioStats.mean = -20971 / 901425 := by
  rw [scenarioStats, scenarioReturns_eq]
  norm_num [computeStatsFullSample, sumList]

theorem scenarioStats_std_eq :
    scenarioStats.std
      = Real.sqrt (sumSqDev [(102 - 100) / 100, (101 - 102) / 102,
          (105 - 101) / 101, (90 - 105) / 105] (-20971 / 901425) / 3) := by
  rw [scenarioStats, scenarioReturns_eq]
  norm_num [computeStatsFullSample, sumList]

theorem scenarioVarBounds :
    ((8225 : ℝ) / 100000) ^ 2 ≤ sumSqDev [(102 - 100) / 100, (101 - 102) / 102,
        (105 - 101) / 101, (90 - 105) / 105] (-20971 / 901425) / 3
    ∧ sumSqDev [(102 - 100) / 100, (101 - 102) / 102,
        (105 - 101) / 101, (90 - 105) / 105] ((-20971 : ℝ) / 901425) / 3
      ≤ ((8235 : ℝ) / 100000) ^ 2 := by
  constructor <;> norm_num [sumSqDev]

theorem scenarioStats_std_bounds :
    (8225 : ℝ) / 100000 ≤ scenarioStats.std
    ∧ scenarioStats.std ≤ (8235 : ℝ) / 100000 := by
  rw [scenarioStats_std_eq]
  constructor
  · rw [Real.le_sqrt' (by norm_num)]
    exact scenarioVarBounds.1
  · calc Real.sqrt (sumSqDev [(102 - 100) / 100, (101 - 102) / 102,
        (105 - 101) / 101, (90 - 105) / 105] (-20971 / 901425) / 3)
        ≤ Real.sqrt (((8235 : ℝ) / 100000) ^ 2) :=
          Real.sqrt_le_sqrt scenarioVarBounds.2
      _ = (8235 : ℝ) / 100000 := Real.sqrt_sq (by norm_num)

/-- C5 counterexample: on the scenario prices 100, 102, 101, 105, 90 with
daily period, the full-sample mean is not near the value -0.0133 claimed by
the spec and the std is not near 0.0756, even with a tolerance of 0.005 a
hundred times wider than four-decimal rounding.  The actual values are
mean -20971 over 901425, about -0.0233, and std about 0.0823. -/
theorem scenario_fullSample_spec_values_false :
    ¬ (|scenarioStats.mean - (-(133 : ℝ) / 10000)| ≤ 5 / 1000
       ∧ |scenarioStats.std - (756 : ℝ) / 10000| ≤ 5 / 1000) := by
  intro h
  obtain ⟨h1, h2⟩ := h
  rw [scenarioStats_mean, abs_le] at h1
  have := h1.1
  norm_num at this

/-- C5 amended: the scenario yields the four returns 0.02, -0.0098, 0.0396
and -0.1429 to four decimal places as the spec states, but the full-sample
statistics with the sample divisor 3 are mean about -0.0233 and std about
0.0823, not -0.0133 and 0.0756. -/
theorem scenario_fullSample_corrected :
    scenarioReturns.length = 4
    ∧ |(scenarioReturns.getD 0 dfltR).ret - (200 : ℝ) / 10000| ≤ 5 / 100000
    ∧ |(scenarioReturns.getD 1 dfltR).ret - (-(98 : ℝ) / 10000)| ≤ 5 / 100000
    ∧ |(scenarioReturns.getD 2 dfltR).ret - (396 : ℝ) / 10000| ≤ 5 / 100000
    ∧ |(scenarioReturns.getD 3 dfltR).ret - (-(1429 : ℝ) / 10000)| ≤ 5 / 100000
    ∧ |scenarioStats.mean - (-(233 : ℝ) / 10000)| ≤ 5 / 100000
    ∧ (823 : ℝ) / 10000 - 5 / 100000 ≤ scenarioStats.std
    ∧ scenarioStats.std ≤ (823 : ℝ) / 10000 + 5 / 100000 := by
  have hb := scenarioStats_std_bounds
  refine ⟨?_, ?_, ?_, ?_, ?_, ?_, ?_, ?_⟩
  · rw [scenarioReturns_eq]
    rfl
  · rw [scenarioReturns_eq]
    norm_num
  · rw [scenarioReturns_eq]
    norm_num
    rw [abs_le]
    constructor <;> norm_num
  · rw [scenarioReturns_eq]
    norm_num
    rw [abs_le]
    constructor <;> norm_num
  · rw [scenarioReturns_eq]
    norm_num
    rw [abs_le]
    constructor <;> norm_num
  · rw [scenarioStats_mean, abs_le]
    constructor <;> norm_num
  · calc (823 : ℝ) / 10000 - 5 / 100000 = (8225 : ℝ) / 100000 := by norm_num
      _ ≤ scenarioStats.std := hb.1
  · calc scenarioStats.std ≤ (8235 : ℝ) / 100000 := hb.2
      _ = (823 : ℝ) / 10000 + 5 / 100000 := by norm_num

end SigmaTracker
